import Mathlib

/-!
Shallow embedding of the investment-tracker portfolio engine: the price
cache/fetch layer (`src/modules/market_data/service.py`), the weighted-average
position ledger and valuation (`src/modules/portfolio/service.py`), the alert
evaluation pass (`src/modules/market_data/tasks.py`) and the history snapshot
upsert (`src/modules/portfolio/repository.py`).  Decimal and float values are
embedded as `Rat`; database `Numeric(18, n)` columns quantize on persistence,
modelled by `roundTo`.
-/

namespace Tracker

/-- Rounding of a rational to `n` decimal places (half away from zero for the
nonnegative values that occur here): models the quantization performed by a
`Numeric(18, n)` database column when a value is persisted. -/
def roundTo (n : Nat) (x : Rat) : Rat :=
  ((⌊x * (10 : Rat) ^ n + 1 / 2⌋ : Int) : Rat) / (10 : Rat) ^ n

/-- Quantization of the `avg_buy_price` column, `Numeric(18, 2)`
(`src/modules/portfolio/models.py`, line 72). -/
def round2 (x : Rat) : Rat := roundTo 2 x

/-- Quantization of the `quantity` column, `Numeric(18, 8)`
(`src/modules/portfolio/models.py`, line 71). -/
def round8 (x : Rat) : Rat := roundTo 8 x

/-- Entry stored in the redis price cache: the price value (stored as
`str(price)` in the code, embedded as the rational it denotes) together with
the TTL in seconds passed to `redis.set`. -/
structure CacheEntry where
  value : Rat
  ttl : Nat
  deriving DecidableEq

/-- The redis key space: a map from string keys to present-and-unexpired
entries.  An expired or never-written key reads as `none`. -/
abbrev Cache := String → Option CacheEntry

/-- Overwrite of a single key, as performed by `redis.set(key, value, ex=ttl)`. -/
def Cache.set (c : Cache) (k : String) (e : CacheEntry) : Cache :=
  fun k2 => if k2 = k then some e else c k2

/-- Cache with no live keys. -/
def emptyCache : Cache := fun _ => none

/-- `MarketDataService.CACHE_EXPIRE_SECONDS`
(`src/modules/market_data/service.py`, line 16). -/
def CACHE_EXPIRE_SECONDS : Nat := 600

/-- Uppercasing of a ticker, modelling Python `str.upper()` characterwise. -/
def upperStr (s : String) : String := ⟨s.data.map Char.toUpper⟩

/-- Cache key construction `f"price:{ticker.upper()}"`
(`src/modules/market_data/service.py`, line 28). -/
def cacheKey (ticker : String) : String := "price:" ++ upperStr ticker

/-- Result of one `MarketDataService.get_price` call: the returned price, the
cache state after the call, and how many calls were made to the external
market-data client during the call. -/
structure GetPriceResult where
  price : Option Rat
  cache : Cache
  fetchCalls : Nat

/-- `MarketDataService.get_price` (`src/modules/market_data/service.py`,
lines 22-37).  `fetch` stands for `CoinGeckoClient.get_current_price`, which
returns a price or `None` and never raises.  Unless `force_refresh` is set the
cache is consulted first and a hit returns immediately; otherwise the client
is called, and a returned price is written back under `cacheKey ticker` with
the configured TTL while an absent result leaves the cache untouched. -/
def get_price (cache : Cache) (fetch : String → Option Rat) (ticker : String)
    (force_refresh : Bool) : GetPriceResult :=
  match (if force_refresh then none else cache (cacheKey ticker)) with
  | some entry => ⟨some entry.value, cache, 0⟩
  | none =>
    match fetch ticker with
    | some p => ⟨some p, Cache.set cache (cacheKey ticker) ⟨p, CACHE_EXPIRE_SECONDS⟩, 1⟩
    | none => ⟨none, cache, 1⟩

/-- C2: on the fetch path (cache miss or `force_refresh = true`), if the
market-data source returns a price `p` then `get_price` returns `p` and writes
`p` under the uppercased namespaced key with the configured TTL; if the source
returns absent, `get_price` returns absent and the cache is unchanged (no
negative caching). -/
theorem get_price_fetch_path (cache : Cache) (fetch : String → Option Rat)
    (ticker : String) (force_refresh : Bool)
    (hmiss : force_refresh = true ∨ cache (cacheKey ticker) = none) :
    (∀ p, fetch ticker = some p →
      get_price cache fetch ticker force_refresh =
        ⟨some p, Cache.set cache (cacheKey ticker) ⟨p, CACHE_EXPIRE_SECONDS⟩, 1⟩) ∧
    (fetch ticker = none →
      get_price cache fetch ticker force_refresh = ⟨none, cache, 1⟩) := by
  have hk : (if force_refresh then none else cache (cacheKey ticker)) =
      (none : Option CacheEntry) := by
    rcases hmiss with h | h
    · simp [h]
    · cases force_refresh <;> simp [h]
  constructor
  · intro p hp
    simp only [get_price, hk, hp]
  · intro hp
    simp only [get_price, hk, hp]

/-- Market-data source used in the C2 witness: knows the price of "ETH". -/
def fetchETH : String → Option Rat := fun t => if t = "ETH" then some 3000 else none

/-- C2 witness: with an empty cache, fetching "ETH" from a source that quotes
3000 returns 3000 and leaves the cache holding 3000 with the default TTL. -/
theorem get_price_fetch_path_witness :
    (get_price emptyCache fetchETH "ETH" false).price = some 3000 ∧
    (get_price emptyCache fetchETH "ETH" false).cache (cacheKey "ETH") =
      some ⟨3000, CACHE_EXPIRE_SECONDS⟩ := by
  have h := (get_price_fetch_path emptyCache fetchETH "ETH" false (Or.inr rfl)).1
    3000 (by simp [fetchETH])
  rw [h]
  refine ⟨rfl, ?_⟩
  simp [Cache.set]

/-- C3: with `force_refresh = false` and a live cache entry for the ticker,
`get_price` returns the cached value, leaves the cache unchanged, and makes
zero calls to the external market-data source. -/
theorem get_price_cache_hit (cache : Cache) (fetch : String → Option Rat)
    (ticker : String) (entry : CacheEntry)
    (hhit : cache (cacheKey ticker) = some entry) :
    get_price cache fetch ticker false = ⟨some entry.value, cache, 0⟩ := by
  simp only [get_price, hhit, Bool.false_eq_true, if_false]

/-- Cache used in the C3 witness: holds 42 for "BTC". -/
def cacheBTC : Cache := fun k => if k = "price:BTC" then some ⟨42, 600⟩ else none

/-- Source used in the C3 witness: would return 7 for everything, so any call
to it would be visible in the result. -/
def fetchSeven : String → Option Rat := fun _ => some 7

/-- C3 witness: with 42 cached for "BTC", `get_price` returns 42, keeps the
cache as it was, and performs zero fetches even though the source would have
answered. -/
theorem get_price_cache_hit_witness :
    get_price cacheBTC fetchSeven "BTC" false = ⟨some 42, cacheBTC, 0⟩ :=
  get_price_cache_hit cacheBTC fetchSeven "BTC" ⟨42, 600⟩ (by decide)

/-- Alert direction enum `AlertCondition` with members `ABOVE` and `BELOW`
(referenced from `src/modules/market_data/tasks.py` and
`src/modules/portfolio/schemas.py`). -/
inductive AlertCondition where
  | ABOVE
  | BELOW
  deriving DecidableEq

/-- Alert row: user-owned ticker watch with target price, direction and
active flag (fields as used by `src/modules/market_data/tasks.py` and
`src/modules/portfolio/repository.py`). -/
structure Alert where
  id : Nat
  user_id : Nat
  ticker : String
  target_price : Rat
  condition : AlertCondition
  is_active : Bool
  deriving DecidableEq

/-- Payload handed to `NotificationService.send_price_alert_email`
(`src/modules/market_data/tasks.py`, lines 57-63). -/
structure Notification where
  user_id : Nat
  ticker : String
  price : Rat
  condition : AlertCondition
  target : Rat
  deriving DecidableEq

/-- Cache key read by the alert pass, `f"price:{alert.ticker}"`
(`src/modules/market_data/tasks.py`, line 38) — note: no uppercasing here,
alert tickers are validated uppercase by the schema. -/
def alert_cache_key (a : Alert) : String := "price:" ++ a.ticker

/-- Body of the `for alert in active_alerts` loop of `_process_alerts`
(`src/modules/market_data/tasks.py`, lines 37-66), for one row of the alert
table: inactive rows are not in `get_all_active` and stay untouched; an active
row whose ticker has no cached price is skipped; otherwise the strict
threshold comparison decides triggering, and a triggered alert is deactivated
after its notification is dispatched. -/
def processAlert (cache : Cache) (a : Alert) : Alert × Option Notification :=
  if a.is_active then
    match cache (alert_cache_key a) with
    | none => (a, none)
    | some e =>
      if (a.condition = AlertCondition.ABOVE ∧ e.value > a.target_price) ∨
          (a.condition = AlertCondition.BELOW ∧ e.value < a.target_price) then
        ({a with is_active := false}, some ⟨a.user_id, a.ticker, e.value, a.condition, a.target_price⟩)
      else
        (a, none)
  else
    (a, none)

/-- Sequential loop of `_process_alerts` over the alert table: returns the
table after the pass, the notifications dispatched in order, and
`triggered_count`. -/
def process_alerts_loop (cache : Cache) : List Alert → List Alert × List Notification × Nat
  | [] => ([], [], 0)
  | a :: rest =>
    match processAlert cache a, process_alerts_loop cache rest with
    | (a2, some notif), (rs, ns, cnt) => (a2 :: rs, notif :: ns, cnt + 1)
    | (a2, none), (rs, ns, cnt) => (a2 :: rs, ns, cnt)

/-- Alert table together with the number of `session.commit()` calls made so
far, so that the single-commit-per-pass behaviour is observable. -/
structure AlertStore where
  rows : List Alert
  commits : Nat
  deriving DecidableEq

/-- `_process_alerts` (`src/modules/market_data/tasks.py`, lines 25-71): runs
the loop over all rows (active ones are processed, the rest untouched), then
commits once at the end if and only if `triggered_count > 0`, and returns the
count. -/
def process_alerts (cache : Cache) (store : AlertStore) : AlertStore × List Notification × Nat :=
  match process_alerts_loop cache store.rows with
  | (rows2, ns, cnt) =>
    (⟨rows2, store.commits + (if 0 < cnt then 1 else 0)⟩, ns, cnt)

/-- Boolean form of the trigger condition for one alert row against the cache:
active, price cached, and the strict threshold comparison holds. -/
def alertFires (cache : Cache) (a : Alert) : Bool :=
  a.is_active &&
    (match cache (alert_cache_key a) with
     | none => false
     | some e =>
       decide ((a.condition = AlertCondition.ABOVE ∧ e.value > a.target_price) ∨
               (a.condition = AlertCondition.BELOW ∧ e.value < a.target_price)))

/-- Effect of one pass on one row: deactivated exactly when it fires. -/
def deactivateFired (cache : Cache) (a : Alert) : Alert :=
  if alertFires cache a then {a with is_active := false} else a

theorem processAlert_fst (cache : Cache) (a : Alert) :
    (processAlert cache a).1 = deactivateFired cache a := by
  unfold processAlert deactivateFired alertFires
  cases ha : a.is_active
  · simp
  · cases hc : cache (alert_cache_key a) with
    | none => simp
    | some e =>
      by_cases htrig : (a.condition = AlertCondition.ABOVE ∧ e.value > a.target_price) ∨
          (a.condition = AlertCondition.BELOW ∧ e.value < a.target_price)
      · simp [htrig]
      · simp [htrig]

theorem processAlert_snd_isSome (cache : Cache) (a : Alert) :
    (processAlert cache a).2.isSome = alertFires cache a := by
  unfold processAlert alertFires
  cases ha : a.is_active
  · simp
  · cases hc : cache (alert_cache_key a) with
    | none => simp
    | some e =>
      by_cases htrig : (a.condition = AlertCondition.ABOVE ∧ e.value > a.target_price) ∨
          (a.condition = AlertCondition.BELOW ∧ e.value < a.target_price)
      · simp [htrig]
      · simp [htrig]

theorem process_alerts_loop_rows (cache : Cache) :
    ∀ rows : List Alert, (process_alerts_loop cache rows).1 = rows.map (deactivateFired cache)
  | [] => rfl
  | a :: rest => by
    have hfst := processAlert_fst cache a
    have hrec := process_alerts_loop_rows cache rest
    rcases hpa : processAlert cache a with ⟨a2, n⟩
    rcases hpl : process_alerts_loop cache rest with ⟨rs, ns, cnt⟩
    rw [hpa] at hfst
    rw [hpl] at hrec
    have hfst2 : a2 = deactivateFired cache a := hfst
    have hrec2 : rs = List.map (deactivateFired cache) rest := hrec
    cases n <;> simp [process_alerts_loop, hpa, hpl, hfst2, hrec2]

theorem process_alerts_loop_count (cache : Cache) :
    ∀ rows : List Alert, (process_alerts_loop cache rows).2.2 = rows.countP (alertFires cache)
  | [] => rfl
  | a :: rest => by
    have hsnd := processAlert_snd_isSome cache a
    have hrec := process_alerts_loop_count cache rest
    rcases hpa : processAlert cache a with ⟨a2, n⟩
    rcases hpl : process_alerts_loop cache rest with ⟨rs, ns, cnt⟩
    rw [hpa] at hsnd
    rw [hpl] at hrec
    have hrec2 : cnt = List.countP (alertFires cache) rest := hrec
    cases n with
    | none =>
      simp only [Option.isSome_none] at hsnd
      simp [process_alerts_loop, hpa, hpl, hrec2, List.countP_cons, ← hsnd]
    | some notif =>
      simp only [Option.isSome_some] at hsnd
      simp [process_alerts_loop, hpa, hpl, hrec2, List.countP_cons, ← hsnd]

theorem alertFires_deactivateFired (cache : Cache) (a : Alert) :
    alertFires cache (deactivateFired cache a) = false := by
  unfold deactivateFired
  by_cases h : alertFires cache a = true
  · rw [if_pos h]
    unfold alertFires
    simp
  · rw [if_neg (by simpa using h)]
    simpa using h

/-- C4: for every active alert row processed by the evaluation pass, a missing
cached price means the row is skipped (returned unchanged, no notification,
no error); with a cached price, the alert is triggered — deactivated with a
notification dispatched — if and only if the strict comparison holds for its
direction, so a cached price exactly equal to the target never triggers. -/
theorem alert_skip_and_strict_threshold (cache : Cache) (a : Alert)
    (ha : a.is_active = true) :
    (cache (alert_cache_key a) = none → processAlert cache a = (a, none)) ∧
    (∀ e : CacheEntry, cache (alert_cache_key a) = some e →
      (((processAlert cache a).1.is_active = false ∧ (processAlert cache a).2.isSome = true) ↔
        ((a.condition = AlertCondition.ABOVE ∧ e.value > a.target_price) ∨
         (a.condition = AlertCondition.BELOW ∧ e.value < a.target_price)))) ∧
    (∀ e : CacheEntry, cache (alert_cache_key a) = some e → e.value = a.target_price →
      processAlert cache a = (a, none)) := by
  refine ⟨?_, ?_, ?_⟩
  · intro hc
    unfold processAlert
    simp [ha, hc]
  · intro e hc
    unfold processAlert
    by_cases htrig : (a.condition = AlertCondition.ABOVE ∧ e.value > a.target_price) ∨
        (a.condition = AlertCondition.BELOW ∧ e.value < a.target_price)
    · simp [ha, hc, htrig]
    · simp [ha, hc, htrig]
  · intro e hc heq
    unfold processAlert
    have htrig : ¬ ((a.condition = AlertCondition.ABOVE ∧ e.value > a.target_price) ∨
        (a.condition = AlertCondition.BELOW ∧ e.value < a.target_price)) := by
      rw [heq]
      rintro (⟨_, hlt⟩ | ⟨_, hlt⟩) <;> exact lt_irrefl _ hlt
    simp [ha, hc, htrig]

/-- Alert used in the C4 witness: active BTC watch, ABOVE 50000. -/
def alertAtTarget : Alert := ⟨1, 7, "BTC", 50000, AlertCondition.ABOVE, true⟩

/-- Cache used in the C4 witness: BTC cached exactly at the target price. -/
def cacheAtTarget : Cache := fun k => if k = "price:BTC" then some ⟨50000, 600⟩ else none

/-- C4 witness: an active ABOVE-50000 alert whose ticker is cached at exactly
50000 is not triggered and its row is unchanged. -/
theorem alert_skip_and_strict_threshold_witness :
    processAlert cacheAtTarget alertAtTarget = (alertAtTarget, none) :=
  (alert_skip_and_strict_threshold cacheAtTarget alertAtTarget rfl).2.2
    ⟨50000, 600⟩ (by decide) (by decide)

/-- C5: the evaluation pass deactivates exactly the alerts that trigger
(every row becomes `deactivateFired` of itself, so untriggered rows are
unmodified), returns the number of alerts that fired, performs a single
commit at the end of the pass exactly when that number is positive, and an
immediately repeated pass over the same cache returns count 0. -/
theorem evaluate_active_single_commit_and_idempotent (cache : Cache) (store : AlertStore) :
    (process_alerts cache store).1.rows = store.rows.map (deactivateFired cache) ∧
    (process_alerts cache store).2.2 = store.rows.countP (alertFires cache) ∧
    (process_alerts cache store).1.commits =
      store.commits + (if 0 < (process_alerts cache store).2.2 then 1 else 0) ∧
    (process_alerts cache (process_alerts cache store).1).2.2 = 0 := by
  have hrows := process_alerts_loop_rows cache store.rows
  have hcnt := process_alerts_loop_count cache store.rows
  rcases hpl : process_alerts_loop cache store.rows with ⟨rs, ns, cnt⟩
  rw [hpl] at hrows hcnt
  have hrows2 : rs = store.rows.map (deactivateFired cache) := hrows
  have hcnt2 : cnt = store.rows.countP (alertFires cache) := hcnt
  have hpa : process_alerts cache store = (⟨rs, store.commits + (if 0 < cnt then 1 else 0)⟩, ns, cnt) := by
    unfold process_alerts
    rw [hpl]
  refine ⟨by rw [hpa]; exact hrows2, by rw [hpa]; exact hcnt2, by rw [hpa], ?_⟩
  rw [hpa]
  have h2 : (process_alerts_loop cache rs).2.2 = rs.countP (alertFires cache) :=
    process_alerts_loop_count cache rs
  have hzero : rs.countP (alertFires cache) = 0 := by
    rw [hrows2, List.countP_map]
    have : ∀ x ∈ store.rows, ¬ ((alertFires cache ∘ deactivateFired cache) x = true) := by
      intro x _
      simp [Function.comp, alertFires_deactivateFired]
    simpa [List.countP_eq_zero] using this
  unfold process_alerts
  rcases hpl2 : process_alerts_loop cache rs with ⟨rs2, ns2, cnt2⟩
  rw [hpl2] at h2
  have h2b : cnt2 = rs.countP (alertFires cache) := h2
  exact h2b.trans hzero

/-- Asset class enum `AssetType` (`src/modules/portfolio/models.py`,
lines 20-30). -/
inductive AssetType where
  | CRYPTO
  | STOCK
  | ETF
  | FOREX
  | COMMODITY
  deriving DecidableEq

/-- Asset row (`src/modules/portfolio/models.py`, lines 60-86): persisted
columns plus the transient valuation fields `current_price`, `current_value`,
`pnl_percentage`, which are `None` on a freshly loaded row. -/
structure Asset where
  id : Nat
  ticker : String
  quantity : Rat
  avg_buy_price : Rat
  asset_type : AssetType
  portfolio_id : Nat
  current_price : Option Rat
  current_value : Option Rat
  pnl_percentage : Option Rat
  deriving DecidableEq

/-- Portfolio row (`src/modules/portfolio/models.py`, lines 33-57) with its
assets eagerly loaded and the transient totals, `None` on a freshly loaded
row. -/
structure Portfolio where
  id : Nat
  user_id : Nat
  name : String
  assets : List Asset
  total_value : Option Rat
  total_pnl_percentage : Option Rat
  deriving DecidableEq

/-- Per-asset enrichment inside the `for asset, price in zip(...)` loop of
`PortfolioService.get_portfolio` (`src/modules/portfolio/service.py`,
lines 66-79): `current_price` is always assigned the looked-up price (which
may be `None`); with a resolved price, `current_value = quantity * price` is
set and `pnl_percentage` is set only when `cost_val > 0`. -/
def enrichAsset (prices : String → Option Rat) (a : Asset) : Asset :=
  match prices a.ticker with
  | none => {a with current_price := none}
  | some p =>
    let current_val := a.quantity * p
    let cost_val := a.quantity * a.avg_buy_price
    {a with
      current_price := some p
      current_value := some current_val
      pnl_percentage :=
        if cost_val > 0 then some ((current_val - cost_val) / cost_val * 100) else a.pnl_percentage}

/-- Accumulation of `total_value` and `total_cost` over the same loop
(`src/modules/portfolio/service.py`, lines 63-82): both start at 0 and only
assets with a resolved price contribute. -/
def resolvedTotals (prices : String → Option Rat) (assets : List Asset) : Rat × Rat :=
  assets.foldl
    (fun acc a =>
      match prices a.ticker with
      | some p => (acc.1 + a.quantity * p, acc.2 + a.quantity * a.avg_buy_price)
      | none => acc)
    (0, 0)

/-- Valuation part of `PortfolioService.get_portfolio`
(`src/modules/portfolio/service.py`, lines 56-88), after the not-found and
ownership checks: an empty holding returns immediately with no price lookups;
otherwise one price lookup per asset is issued, each asset is enriched,
`total_value` is always set to the accumulated total, and
`total_pnl_percentage` only when `total_cost > 0`.  The second component is
the list of tickers for which a price lookup was issued. -/
def get_portfolio (prices : String → Option Rat) (p : Portfolio) : Portfolio × List String :=
  if p.assets = [] then (p, [])
  else
    let totals := resolvedTotals prices p.assets
    ({p with
        assets := p.assets.map (enrichAsset prices)
        total_value := some totals.1
        total_pnl_percentage :=
          if totals.2 > 0 then some ((totals.1 - totals.2) / totals.2 * 100)
          else p.total_pnl_percentage},
      p.assets.map (fun a => a.ticker))

/-- Assets of a holding whose price lookup resolved. -/
def resolvedAssets (prices : String → Option Rat) (assets : List Asset) : List Asset :=
  assets.filter (fun a => (prices a.ticker).isSome)

/-- Sum of `quantity * price` over the resolved assets. -/
def resolvedValue (prices : String → Option Rat) (assets : List Asset) : Rat :=
  ((resolvedAssets prices assets).map (fun a => a.quantity * (prices a.ticker).getD 0)).sum

/-- Sum of `quantity * avg_buy_price` over the resolved assets. -/
def resolvedCost (prices : String → Option Rat) (assets : List Asset) : Rat :=
  ((resolvedAssets prices assets).map (fun a => a.quantity * a.avg_buy_price)).sum

theorem resolvedTotals_go (prices : String → Option Rat) :
    ∀ (assets : List Asset) (acc : Rat × Rat),
      assets.foldl
        (fun acc a =>
          match prices a.ticker with
          | some p => (acc.1 + a.quantity * p, acc.2 + a.quantity * a.avg_buy_price)
          | none => acc)
        acc =
      (acc.1 + resolvedValue prices assets, acc.2 + resolvedCost prices assets)
  | [], acc => by
    simp [resolvedValue, resolvedCost, resolvedAssets]
  | a :: rest, acc => by
    cases hp : prices a.ticker with
    | none =>
      simp only [List.foldl_cons, hp]
      rw [resolvedTotals_go prices rest acc]
      simp [resolvedValue, resolvedCost, resolvedAssets, List.filter_cons, hp]
    | some p =>
      simp only [List.foldl_cons, hp]
      rw [resolvedTotals_go prices rest (acc.1 + a.quantity * p, acc.2 + a.quantity * a.avg_buy_price)]
      simp only [resolvedValue, resolvedCost, resolvedAssets, List.filter_cons, hp,
        Option.isSome_some, if_true, List.map_cons, List.sum_cons, Option.getD_some, Prod.mk.injEq]
      constructor <;> ring

theorem resolvedTotals_eq (prices : String → Option Rat) (assets : List Asset) :
    resolvedTotals prices assets = (resolvedValue prices assets, resolvedCost prices assets) := by
  unfold resolvedTotals
  rw [resolvedTotals_go]
  simp

/-- C6: for every resolved position, valuation sets
`current_value = quantity * price` and, when `cost_val = quantity * unitCost`
is positive, `pnl_percentage = (current - cost) / cost * 100`, leaving
`pnl_percentage` as loaded (unset) when the cost value is 0; the aggregate
`total_value` is the sum of `quantity * price` over the resolved positions
and `total_pnl_percentage` is computed from the resolved totals under the
same positivity guard. -/
theorem valuation_formulas (prices : String → Option Rat) (p : Portfolio)
    (hne : p.assets ≠ []) :
    ((get_portfolio prices p).1.total_value = some (resolvedValue prices p.assets)) ∧
    (0 < resolvedCost prices p.assets →
      (get_portfolio prices p).1.total_pnl_percentage =
        some ((resolvedValue prices p.assets - resolvedCost prices p.assets) /
          resolvedCost prices p.assets * 100)) ∧
    (∀ (a : Asset) (pr : Rat), prices a.ticker = some pr →
      (enrichAsset prices a).current_value = some (a.quantity * pr) ∧
      (0 < a.quantity * a.avg_buy_price →
        (enrichAsset prices a).pnl_percentage =
          some ((a.quantity * pr - a.quantity * a.avg_buy_price) /
            (a.quantity * a.avg_buy_price) * 100)) ∧
      (a.quantity * a.avg_buy_price = 0 →
        (enrichAsset prices a).pnl_percentage = a.pnl_percentage)) := by
  refine ⟨?_, ?_, ?_⟩
  · simp [get_portfolio, hne, resolvedTotals_eq]
  · intro hpos
    simp [get_portfolio, hne, resolvedTotals_eq, hpos]
  · intro a pr hpr
    refine ⟨?_, ?_, ?_⟩
    · simp [enrichAsset, hpr]
    · intro hpos
      simp [enrichAsset, hpr, hpos]
    · intro hzero
      simp [enrichAsset, hpr, hzero]

/-- Asset used in the C6 witness: BTC, quantity 1, average cost 20000, as
freshly loaded. -/
def btcAsset : Asset := ⟨1, "BTC", 1, 20000, AssetType.CRYPTO, 1, none, none, none⟩

/-- Portfolio used in the C6 witness: one BTC position, as freshly loaded. -/
def btcPortfolio : Portfolio := ⟨1, 7, "Main", [btcAsset], none, none⟩

/-- Price lookup used in the C6 witness: BTC quoted at 50000. -/
def pricesBTC : String → Option Rat := fun t => if t = "BTC" then some 50000 else none

/-- C6 witness: a holding with one position of quantity 1 at cost 20000 and
current price 50000 valuates to `total_value` 50000 and
`total_pnl_percentage` 150. -/
theorem valuation_formulas_witness :
    (get_portfolio pricesBTC btcPortfolio).1.total_value = some 50000 ∧
    (get_portfolio pricesBTC btcPortfolio).1.total_pnl_percentage = some 150 := by
  obtain ⟨h1, h2, _⟩ := valuation_formulas pricesBTC btcPortfolio (by simp [btcPortfolio])
  have hval : resolvedValue pricesBTC btcPortfolio.assets = 50000 := by
    norm_num [resolvedValue, resolvedAssets, pricesBTC, btcPortfolio, btcAsset]
  have hcost : resolvedCost pricesBTC btcPortfolio.assets = 20000 := by
    norm_num [resolvedCost, resolvedAssets, pricesBTC, btcPortfolio, btcAsset]
  constructor
  · rw [h1, hval]
  · rw [h2 (by rw [hcost]; norm_num), hval, hcost]
    norm_num

theorem resolvedAssets_nil_of_all_none (prices : String → Option Rat) :
    ∀ assets : List Asset, (∀ b ∈ assets, prices b.ticker = none) →
      resolvedAssets prices assets = []
  | [], _ => rfl
  | a :: rest, hall => by
    have ha := hall a (List.mem_cons_self a rest)
    have hrest := resolvedAssets_nil_of_all_none prices rest
      (fun b hb => hall b (List.mem_cons_of_mem a hb))
    simp [resolvedAssets, List.filter_cons, ha] at hrest ⊢
    exact hrest

/-- C7: valuation never fails on unresolved prices — a position whose price
lookup returns absent keeps its loaded (unset) `current_value` and
`pnl_percentage` and has `current_price` set to absent, contributes nothing
to either accumulated total, and a nonempty holding all of whose prices are
absent still valuates, with `total_value` set to 0 rather than the request
failing. -/
theorem valuation_unresolved (prices : String → Option Rat) (a : Asset)
    (hnone : prices a.ticker = none) (hcv : a.current_value = none)
    (hpnl : a.pnl_percentage = none) :
    (enrichAsset prices a).current_value = none ∧
    (enrichAsset prices a).pnl_percentage = none ∧
    (enrichAsset prices a).current_price = none ∧
    (∀ rest : List Asset, resolvedTotals prices (a :: rest) = resolvedTotals prices rest) ∧
    (∀ q : Portfolio, q.assets ≠ [] → (∀ b ∈ q.assets, prices b.ticker = none) →
      (get_portfolio prices q).1.total_value = some 0) := by
  refine ⟨?_, ?_, ?_, ?_, ?_⟩
  · simp [enrichAsset, hnone, hcv]
  · simp [enrichAsset, hnone, hpnl]
  · simp [enrichAsset, hnone]
  · intro rest
    rw [resolvedTotals_eq, resolvedTotals_eq]
    simp [resolvedValue, resolvedCost, resolvedAssets, List.filter_cons, hnone]
  · intro q hne hall
    have hnil := resolvedAssets_nil_of_all_none prices q.assets hall
    simp [get_portfolio, hne, resolvedTotals_eq, resolvedValue, resolvedCost, hnil]

/-- Price lookup used in the C7 witness: quotes nothing. -/
def pricesNone : String → Option Rat := fun _ => none

/-- C7 witness: with no quote available, the BTC position keeps unset value
and PnL, and its single-position holding still valuates with `total_value`
0. -/
theorem valuation_unresolved_witness :
    (enrichAsset pricesNone btcAsset).current_value = none ∧
    (enrichAsset pricesNone btcAsset).pnl_percentage = none ∧
    (get_portfolio pricesNone btcPortfolio).1.total_value = some 0 := by
  obtain ⟨h1, h2, _, _, h5⟩ := valuation_unresolved pricesNone btcAsset rfl rfl rfl
  exact ⟨h1, h2, h5 btcPortfolio (by simp [btcPortfolio]) (by intro b _; rfl)⟩

/-- C10: an empty holding valuates successfully with zero price lookups and
is returned unchanged, its totals left unset as loaded — in contrast to a
nonempty holding all of whose prices are unresolved, whose `total_value` is
set to 0. -/
theorem empty_holding_valuation (prices : String → Option Rat) (p : Portfolio)
    (hempty : p.assets = []) (htv : p.total_value = none)
    (htp : p.total_pnl_percentage = none) :
    (get_portfolio prices p).1 = p ∧
    (get_portfolio prices p).2 = [] ∧
    (get_portfolio prices p).1.total_value = none ∧
    (get_portfolio prices p).1.total_pnl_percentage = none ∧
    (∀ q : Portfolio, q.assets ≠ [] → (∀ b ∈ q.assets, prices b.ticker = none) →
      (get_portfolio prices q).1.total_value = some 0) := by
  have h1 : get_portfolio prices p = (p, []) := by
    simp [get_portfolio, hempty]
  refine ⟨by rw [h1], by rw [h1], by rw [h1]; exact htv, by rw [h1]; exact htp, ?_⟩
  intro q hne hall
  have hnil := resolvedAssets_nil_of_all_none prices q.assets hall
  simp [get_portfolio, hne, resolvedTotals_eq, resolvedValue, resolvedCost, hnil]

/-- Portfolio used in the C10 witness: no positions, as freshly loaded. -/
def emptyPortfolio : Portfolio := ⟨2, 7, "Empty", [], none, none⟩

/-- C10 witness: the empty holding is returned as-is with no lookups and
unset totals, while the one-position holding with no quote gets
`total_value` 0. -/
theorem empty_holding_valuation_witness :
    (get_portfolio pricesNone emptyPortfolio).1 = emptyPortfolio ∧
    (get_portfolio pricesNone emptyPortfolio).2 = [] ∧
    (get_portfolio pricesNone emptyPortfolio).1.total_value = none ∧
    (get_portfolio pricesNone btcPortfolio).1.total_value = some 0 := by
  obtain ⟨h1, h2, h3, _, h5⟩ :=
    empty_holding_valuation pricesNone emptyPortfolio rfl rfl rfl
  exact ⟨h1, h2, h3, h5 btcPortfolio (by simp [btcPortfolio]) (by intro b _; rfl)⟩

/-- Payload `AssetCreate` for a contribution
(`src/modules/portfolio/schemas.py`, lines 15-31): ticker, positive quantity,
positive two-decimal unit cost, and an asset class tag. -/
structure AssetCreate where
  ticker : String
  quantity : Rat
  avg_buy_price : Rat
  asset_type : AssetType
  deriving DecidableEq

/-- `PortfolioRepository.get_asset_by_ticker`
(`src/modules/portfolio/repository.py`, lines 81-87): first row of the asset
table matching the portfolio id and ticker. -/
def get_asset_by_ticker (rows : List Asset) (portfolio_id : Nat) (ticker : String) : Option Asset :=
  rows.find? (fun a => a.portfolio_id == portfolio_id && a.ticker == ticker)

/-- Merge branch of `PortfolioService.add_asset_to_portfolio`
(`src/modules/portfolio/service.py`, lines 128-141): weighted-average
recompute over exact decimals, with the zero-total-quantity guard defaulting
the cost to 0.  The `Numeric(18, 8)` and `Numeric(18, 2)` columns quantize
the stored quantity and cost when the row is committed. -/
def mergeAsset (existing : Asset) (asset_in : AssetCreate) : Asset :=
  let current_value := existing.quantity * existing.avg_buy_price
  let new_addition_value := asset_in.quantity * asset_in.avg_buy_price
  let total_quantity := existing.quantity + asset_in.quantity
  let new_avg_price :=
    if total_quantity > 0 then (current_value + new_addition_value) / total_quantity else 0
  {existing with quantity := round8 total_quantity, avg_buy_price := round2 new_avg_price}

/-- `PortfolioService.add_asset_to_portfolio`
(`src/modules/portfolio/service.py`, lines 113-151), after the not-found and
ownership checks: if the ticker already exists in the portfolio its row is
mutated in place and committed; otherwise a new row is appended.  Returns the
table after the call and the returned asset. -/
def add_asset_to_portfolio (rows : List Asset) (portfolio_id : Nat) (asset_in : AssetCreate)
    (new_id : Nat) : List Asset × Asset :=
  match get_asset_by_ticker rows portfolio_id asset_in.ticker with
  | some existing =>
    let merged := mergeAsset existing asset_in
    (rows.map (fun a => if a.id = existing.id then merged else a), merged)
  | none =>
    let new_asset : Asset :=
      ⟨new_id, asset_in.ticker, round8 asset_in.quantity, round2 asset_in.avg_buy_price,
        asset_in.asset_type, portfolio_id, none, none, none⟩
    (rows ++ [new_asset], new_asset)

/-- C1: a contribution of quantity q1 > 0 at unit cost c1 > 0 to a ticker that
already has a row with quantity q0 > 0 and cost c0 > 0 mutates that row in
place — the table keeps its length, no second row appears — leaving quantity
q0 + q1 (exact, the quantities being 8-decimal values) and unit cost
(q0*c0 + q1*c1) / (q0 + q1) computed exactly and quantized to 2 decimals on
commit. -/
theorem contribute_weighted_average (rows : List Asset) (pid : Nat)
    (asset_in : AssetCreate) (r : Asset) (new_id : Nat)
    (hfind : get_asset_by_ticker rows pid asset_in.ticker = some r)
    (hq0 : 0 < r.quantity) (hc0 : 0 < r.avg_buy_price)
    (hq1 : 0 < asset_in.quantity) (hc1 : 0 < asset_in.avg_buy_price)
    (hq8 : round8 (r.quantity + asset_in.quantity) = r.quantity + asset_in.quantity) :
    (add_asset_to_portfolio rows pid asset_in new_id).1.length = rows.length ∧
    (add_asset_to_portfolio rows pid asset_in new_id).1 =
      rows.map (fun a => if a.id = r.id then mergeAsset r asset_in else a) ∧
    (add_asset_to_portfolio rows pid asset_in new_id).2.quantity =
      r.quantity + asset_in.quantity ∧
    (add_asset_to_portfolio rows pid asset_in new_id).2.avg_buy_price =
      round2 ((r.quantity * r.avg_buy_price + asset_in.quantity * asset_in.avg_buy_price) /
        (r.quantity + asset_in.quantity)) := by
  have hpos : (0 : Rat) < r.quantity + asset_in.quantity := add_pos hq0 hq1
  have hadd : add_asset_to_portfolio rows pid asset_in new_id =
      (rows.map (fun a => if a.id = r.id then mergeAsset r asset_in else a),
        mergeAsset r asset_in) := by
    unfold add_asset_to_portfolio
    rw [hfind]
  refine ⟨?_, ?_, ?_, ?_⟩
  · rw [hadd]; exact List.length_map _ _
  · rw [hadd]
  · rw [hadd]
    show (mergeAsset r asset_in).quantity = r.quantity + asset_in.quantity
    unfold mergeAsset
    exact hq8
  · rw [hadd]
    show (mergeAsset r asset_in).avg_buy_price = _
    unfold mergeAsset
    simp [hpos]

/-- Existing position used in the C1 witness: BTC, quantity 1, cost 20000. -/
def existingBTC : Asset := ⟨1, "BTC", 1, 20000, AssetType.CRYPTO, 1, none, none, none⟩

/-- Contribution used in the C1 witness: 1 more BTC at 40000. -/
def contribBTC : AssetCreate := ⟨"BTC", 1, 40000, AssetType.CRYPTO⟩

/-- C1 witness: contributing quantity 1 at 40000 to an existing position of
quantity 1 at 20000 keeps a single row and yields quantity 2 at average cost
30000. -/
theorem contribute_weighted_average_witness :
    (add_asset_to_portfolio [existingBTC] 1 contribBTC 2).1.length = 1 ∧
    (add_asset_to_portfolio [existingBTC] 1 contribBTC 2).2.quantity = 2 ∧
    (add_asset_to_portfolio [existingBTC] 1 contribBTC 2).2.avg_buy_price = 30000 := by
  obtain ⟨h1, _, h3, h4⟩ := contribute_weighted_average [existingBTC] 1 contribBTC existingBTC 2
    (by decide) (by norm_num [existingBTC]) (by norm_num [existingBTC])
    (by norm_num [contribBTC]) (by norm_num [contribBTC])
    (by norm_num [existingBTC, contribBTC, round8, roundTo])
  refine ⟨h1, ?_, ?_⟩
  · rw [h3]; norm_num [existingBTC, contribBTC]
  · rw [h4]; norm_num [existingBTC, contribBTC, round2, roundTo]

/-- C9: merging a contribution into an existing position changes only the
quantity and average cost — the contribution's asset class is ignored, and
the row keeps its asset class, ticker, owning portfolio and identity. -/
theorem merge_retains_identity_fields (existing : Asset) (asset_in : AssetCreate) :
    (mergeAsset existing asset_in).ticker = existing.ticker ∧
    (mergeAsset existing asset_in).asset_type = existing.asset_type ∧
    (mergeAsset existing asset_in).portfolio_id = existing.portfolio_id ∧
    (mergeAsset existing asset_in).id = existing.id := by
  unfold mergeAsset
  exact ⟨rfl, rfl, rfl, rfl⟩

/-- History snapshot row (fields as used by
`PortfolioRepository.create_portfolio_history`,
`src/modules/portfolio/repository.py`, lines 121-140, and by
`tests/integration/test_portfolio_history.py`): one holding, one calendar
date (embedded as an ordinal), total value and total PnL percent. -/
structure PortfolioHistory where
  id : Nat
  portfolio_id : Nat
  date : Nat
  total_value : Rat
  total_pnl_percentage : Option Rat
  deriving DecidableEq

/-- Key predicate of the upsert lookup: same holding and same date. -/
def historyKeyMatches (pid d : Nat) (r : PortfolioHistory) : Bool :=
  r.portfolio_id == pid && r.date == d

/-- `PortfolioRepository.create_portfolio_history`
(`src/modules/portfolio/repository.py`, lines 121-140): the first row for
(holding, date) is overwritten in its value fields if present, otherwise the
new row is added to the session. -/
def create_portfolio_history : List PortfolioHistory → PortfolioHistory → List PortfolioHistory
  | [], h => [h]
  | r :: rest, h =>
    if historyKeyMatches h.portfolio_id h.date r then
      {r with total_value := h.total_value, total_pnl_percentage := h.total_pnl_percentage} :: rest
    else
      r :: create_portfolio_history rest h

/-- Number of snapshot rows stored for a (holding, date) key. -/
def historyCount (rows : List PortfolioHistory) (pid d : Nat) : Nat :=
  rows.countP (historyKeyMatches pid d)

/-- First snapshot row stored for a (holding, date) key. -/
def historyFind (rows : List PortfolioHistory) (pid d : Nat) : Option PortfolioHistory :=
  rows.find? (historyKeyMatches pid d)

theorem create_history_step (rows : List PortfolioHistory) (h : PortfolioHistory)
    (hinv : historyCount rows h.portfolio_id h.date ≤ 1) :
    historyCount (create_portfolio_history rows h) h.portfolio_id h.date = 1 ∧
    (historyFind (create_portfolio_history rows h) h.portfolio_id h.date).map
      (fun r => (r.total_value, r.total_pnl_percentage)) =
      some (h.total_value, h.total_pnl_percentage) := by
  induction rows with
  | nil =>
    constructor
    · simp [create_portfolio_history, historyCount, historyKeyMatches]
    · simp [create_portfolio_history, historyFind, List.find?, historyKeyMatches]
  | cons r rest ih =>
    by_cases hm : historyKeyMatches h.portfolio_id h.date r = true
    · have hm2 : historyKeyMatches h.portfolio_id h.date
          {r with total_value := h.total_value, total_pnl_percentage := h.total_pnl_percentage} = true := by
        simpa [historyKeyMatches] using hm
      have hrest : rest.countP (historyKeyMatches h.portfolio_id h.date) = 0 := by
        have : historyCount (r :: rest) h.portfolio_id h.date =
            rest.countP (historyKeyMatches h.portfolio_id h.date) + 1 := by
          simp [historyCount, List.countP_cons, hm]
        omega
      constructor
      · simp [create_portfolio_history, hm, historyCount, List.countP_cons, hm2, hrest]
      · simp [create_portfolio_history, hm, historyFind, List.find?_cons, hm2]
    · have hinv2 : historyCount rest h.portfolio_id h.date ≤ 1 := by
        have : historyCount (r :: rest) h.portfolio_id h.date =
            historyCount rest h.portfolio_id h.date := by
          simp [historyCount, List.countP_cons, hm]
        omega
      obtain ⟨ih1, ih2⟩ := ih hinv2
      constructor
      · simp [create_portfolio_history, hm, historyCount, List.countP_cons] at ih1 ⊢
        exact ih1
      · simp [create_portfolio_history, hm, historyFind, List.find?_cons] at ih2 ⊢
        exact ih2

/-- C8: starting from a table that respects the at-most-one-row-per-(holding,
date) invariant, any nonempty sequence of snapshot writes for one (holding,
date) key leaves exactly one row for that key, holding the last write's total
value and PnL percent. -/
theorem snapshot_upsert (pid d : Nat) (writes : List PortfolioHistory) :
    ∀ rows : List PortfolioHistory, historyCount rows pid d ≤ 1 → writes ≠ [] →
      (∀ w ∈ writes, w.portfolio_id = pid ∧ w.date = d) →
      historyCount (writes.foldl create_portfolio_history rows) pid d = 1 ∧
      (historyFind (writes.foldl create_portfolio_history rows) pid d).map
        (fun r => (r.total_value, r.total_pnl_percentage)) =
        writes.getLast?.map (fun w => (w.total_value, w.total_pnl_percentage)) := by
  induction writes with
  | nil => intro rows _ hne _; exact absurd rfl hne
  | cons w rest ih =>
    intro rows hinv _ hkeys
    obtain ⟨hwpid, hwd⟩ := hkeys w (List.mem_cons_self w rest)
    have hinv2 : historyCount rows w.portfolio_id w.date ≤ 1 := by rw [hwpid, hwd]; exact hinv
    obtain ⟨hs1, hs2⟩ := create_history_step rows w hinv2
    rw [hwpid, hwd] at hs1 hs2
    cases rest with
    | nil =>
      have hlast : ([w] : List PortfolioHistory).getLast? = some w := rfl
      rw [List.foldl_cons, List.foldl_nil, hlast, Option.map_some']
      exact ⟨hs1, hs2⟩
    | cons w2 rest2 =>
      have hres := ih (create_portfolio_history rows w) (by rw [hs1])
        (List.cons_ne_nil w2 rest2)
        (fun x hx => hkeys x (List.mem_cons_of_mem w hx))
      simpa [List.foldl_cons, List.getLast?_cons_cons] using hres

/-- First snapshot write used in the C8 witness. -/
def snapDayOne : PortfolioHistory := ⟨1, 1, 20260101, 1000, some 10⟩

/-- Second snapshot write used in the C8 witness: same holding and date,
different totals. -/
def snapDayOneLater : PortfolioHistory := ⟨2, 1, 20260101, 1250, some 25⟩

/-- C8 witness: two writes for the same (holding, date) starting from an
empty table leave exactly one row, carrying the second write's values. -/
theorem snapshot_upsert_witness :
    historyCount ([snapDayOne, snapDayOneLater].foldl create_portfolio_history []) 1 20260101 = 1 ∧
    (historyFind ([snapDayOne, snapDayOneLater].foldl create_portfolio_history []) 1 20260101).map
      (fun r => (r.total_value, r.total_pnl_percentage)) = some (1250, some 25) := by
  obtain ⟨h1, h2⟩ := snapshot_upsert 1 20260101 [snapDayOne, snapDayOneLater] []
    (by decide) (by decide)
    (by intro w hw
        simp only [List.mem_cons, List.not_mem_nil, or_false] at hw
        rcases hw with rfl | rfl <;> exact ⟨rfl, rfl⟩)
  refine ⟨h1, ?_⟩
  rw [h2]
  rfl

end Tracker
